import Mathlib

/-!
# Verification of the Providence Smart Worship backend (`backend/app.py`)

A shallow embedding of the backend's core components, with theorems checking
the design document's claims against the code.

Modelling conventions:
* Timestamps are integers (`Int`), standing for points on the UTC timeline;
  the Python code stores ISO-8601 strings and compares parsed `datetime`
  values, which is order-isomorphic to integer comparison.
* The SQLite tables `qr_tokens` and `qr_scans` are lists of rows.
  `SELECT ... WHERE token = ? ... fetchone()` is `List.find?`;
  `UPDATE ... WHERE token = ?` updates every matching row (the `token`
  column is the primary key, so SQLite keeps at most one).
* `sqlite3` raises `IntegrityError` when an `INSERT` violates the primary
  key, so token issuance is modelled as returning `Option`.
-/

namespace PSWS

/-- A row of the `qr_tokens` table (see `init_db` in `backend/app.py`). -/
structure QRTokenRow where
  token : String
  label : String
  expires_at : Int
  single_use : Bool
  used_count : Nat
  created_at : Int
deriving DecidableEq, Repr

/-- A row of the `qr_scans` audit table. `valid` is stored as the integer
`1 if valid else 0`, exactly as in the `INSERT` in `validate_qr_token`. -/
structure ScanRow where
  token : String
  valid : Nat
  scanned_at : Int
  ip_address : Option String
deriving DecidableEq, Repr

/-- The database state relevant to the token registry. -/
structure DB where
  qr_tokens : List QRTokenRow
  qr_scans : List ScanRow
deriving DecidableEq, Repr

/-- `SELECT * FROM qr_tokens WHERE token = ?` followed by `fetchone()`. -/
def findToken (tokens : List QRTokenRow) (token : String) : Option QRTokenRow :=
  tokens.find? (fun r => r.token == token)

/-- The read-and-check phase of `validate_qr_token` (`backend/app.py`
lines 229-240): look the row up and decide `(valid, reason)` from the
snapshot, without writing.  The Python code interleaves this decision with
the write; factoring it out lets the concurrent interleavings be stated. -/
def validateDecision (now : Int) (tokens : List QRTokenRow) (token : String) :
    Bool × String :=
  match findToken tokens token with
  | none => (false, "Invalid token")
  | some row =>
    if row.expires_at < now then (false, "Token expired")
    else if row.single_use && decide (row.used_count > 0) then (false, "Token already used")
    else (true, "OK")

/-- `UPDATE qr_tokens SET used_count = used_count + 1 WHERE token = ?`. -/
def applyIncrement (tokens : List QRTokenRow) (token : String) : List QRTokenRow :=
  tokens.map (fun r => if r.token == token then { r with used_count := r.used_count + 1 } else r)

/-- `validate_qr_token(token, ip_address)` (`backend/app.py` lines 227-248):
decide from the current row, increment `used_count` exactly on the accepting
branch, and append one `qr_scans` audit row on every branch.  Returns the
`(valid, reason)` pair together with the updated database. -/
def validate_qr_token (now : Int) (db : DB) (token : String) (ip : Option String) :
    (Bool × String) × DB :=
  let d := validateDecision now db.qr_tokens token
  let tokens := if d.1 then applyIncrement db.qr_tokens token else db.qr_tokens
  ((d.1, d.2),
   { qr_tokens := tokens,
     qr_scans := db.qr_scans ++ [⟨token, if d.1 then 1 else 0, now, ip⟩] })

/-- `create_qr` (`backend/app.py` lines 351-362): insert a fresh row with
`expires_at = now + minutes_valid` minutes and `used_count = 0`.  The
`token` column is the primary key, so inserting a colliding token raises
`sqlite3.IntegrityError`; that outcome is `none`. -/
def create_qr (now : Int) (db : DB) (token label : String) (minutes_valid : Nat)
    (single_use : Bool) : Option DB :=
  if db.qr_tokens.any (fun r => r.token == token) then none
  else some { db with
    qr_tokens := db.qr_tokens ++
      [⟨token, label, now + (minutes_valid : Int) * 60, single_use, 0, now⟩] }

/-- One interleaved execution of two `validate_qr_token` calls on the same
token in which both `SELECT`s run before either `UPDATE`/`COMMIT`: each call
decides from the same initial snapshot, then both writes are applied.
`validate_qr_token` takes no lock and uses no conditional update, so SQLite
admits this schedule (shared read locks coexist; the write locks serialize
only the updates themselves). -/
def racedValidatePair (now : Int) (db : DB) (token : String) (ip₁ ip₂ : Option String) :
    (Bool × String) × (Bool × String) × DB :=
  let d₁ := validateDecision now db.qr_tokens token
  let d₂ := validateDecision now db.qr_tokens token
  let t₁ := if d₁.1 then applyIncrement db.qr_tokens token else db.qr_tokens
  let t₂ := if d₂.1 then applyIncrement t₁ token else t₁
  (d₁, d₂,
   { qr_tokens := t₂,
     qr_scans := db.qr_scans ++ [⟨token, if d₁.1 then 1 else 0, now, ip₁⟩,
                                 ⟨token, if d₂.1 then 1 else 0, now, ip₂⟩] })

end PSWS

namespace PSWS

/-- The pair returned to the caller is exactly the decision computed from the
pre-call snapshot of `qr_tokens`. -/
theorem validate_qr_token_fst (now : Int) (db : DB) (token : String) (ip : Option String) :
    (validate_qr_token now db token ip).1 = validateDecision now db.qr_tokens token := rfl

/-- Incrementing the matching row commutes with looking the token up. -/
theorem findToken_applyIncrement (tokens : List QRTokenRow) (token : String) :
    findToken (applyIncrement tokens token) token =
      (findToken tokens token).map (fun r => { r with used_count := r.used_count + 1 }) := by
  induction tokens with
  | nil => rfl
  | cons r rs ih =>
    by_cases h : (r.token == token) = true
    · simp [findToken, applyIncrement, List.find?, h]
    · rw [Bool.not_eq_true] at h
      simp only [findToken, applyIncrement, List.map_cons, List.find?, h,
        Bool.false_eq_true, if_false] at ih ⊢
      exact ih

end PSWS

namespace PSWS

/-- The concrete database used to exhibit the expiry-boundary behaviour:
one stored token whose `expires_at` equals the validation time. -/
def boundaryRow : QRTokenRow :=
  { token := "tok", label := "door", expires_at := 0, single_use := false,
    used_count := 0, created_at := 0 }

/-- A database holding exactly `boundaryRow`. -/
def boundaryDB : DB := { qr_tokens := [boundaryRow], qr_scans := [] }

/-- Claim C1 counterexample: at `now = expires_at` the code still accepts the
token.  The stored token exists, `now ≥ expires_at` holds (with equality), yet
`validate_qr_token` returns `(true, "OK")` — not `(false, "Token expired")` as
the claim's `now ≥ expires_at` clause requires.  The code's test is the strict
`expires_at < now` (`backend/app.py` line 234). -/
theorem validate_expired_boundary_counterexample :
    findToken boundaryDB.qr_tokens "tok" = some boundaryRow ∧
    (0 : Int) ≥ boundaryRow.expires_at ∧
    (validate_qr_token 0 boundaryDB "tok" none).1 = (true, "OK") := by
  refine ⟨rfl, le_refl 0, rfl⟩

/-- Claim C1 (amended): the validation result is `(true, "OK")` iff the token
exists, `now ≤ expires_at`, and (`single_use` is false or `used_count = 0`);
otherwise the reason is chosen by priority — "Invalid token" when the token
does not exist, else "Token expired" when `now > expires_at`, else
"Token already used" when `single_use` and `used_count > 0`. -/
theorem validate_qr_token_result_characterization
    (now : Int) (db : DB) (token : String) (ip : Option String) :
    ((validate_qr_token now db token ip).1 = (true, "OK") ↔
      ∃ row, findToken db.qr_tokens token = some row ∧ now ≤ row.expires_at ∧
        (row.single_use = false ∨ row.used_count = 0)) ∧
    (findToken db.qr_tokens token = none →
      (validate_qr_token now db token ip).1 = (false, "Invalid token")) ∧
    (∀ row, findToken db.qr_tokens token = some row → row.expires_at < now →
      (validate_qr_token now db token ip).1 = (false, "Token expired")) ∧
    (∀ row, findToken db.qr_tokens token = some row → now ≤ row.expires_at →
      row.single_use = true → 0 < row.used_count →
      (validate_qr_token now db token ip).1 = (false, "Token already used")) := by
  rw [validate_qr_token_fst]
  cases hrow : findToken db.qr_tokens token with
  | none => simp [validateDecision, hrow]
  | some row =>
    refine ⟨?_, ?_, ?_, ?_⟩
    · by_cases hexp : row.expires_at < now
      · simp only [validateDecision, hrow, if_pos hexp]
        constructor
        · intro h; simp at h
        · rintro ⟨r, hr, hle, -⟩
          cases hr
          exact absurd hle (by omega)
      · by_cases hcond : (row.single_use && decide (row.used_count > 0)) = true
        · simp only [validateDecision, hrow, if_neg hexp, if_pos hcond]
          rw [Bool.and_eq_true, decide_eq_true_eq] at hcond
          constructor
          · intro h; simp at h
          · rintro ⟨r, hr, hle, hor⟩
            cases hr
            rcases hor with h | h
            · rw [hcond.1] at h; cases h
            · exact absurd h (by have := hcond.2; omega)
        · simp only [validateDecision, hrow, if_neg hexp, if_neg hcond]
          rw [Bool.and_eq_true, decide_eq_true_eq] at hcond
          constructor
          · intro _
            refine ⟨row, rfl, by omega, ?_⟩
            cases hsb : row.single_use with
            | false => exact Or.inl rfl
            | true =>
              have h0 : ¬ 0 < row.used_count := fun h => hcond ⟨hsb, h⟩
              exact Or.inr (by omega)
          · intro _; trivial
    · intro h; cases h
    · intro r hr hlt
      cases hr
      simp [validateDecision, hrow, hlt]
    · intro r hr hle hsu h0
      cases hr
      have hexp : ¬ row.expires_at < now := by omega
      simp [validateDecision, hrow, hexp, hsu, h0]

/-- Witness for the amended C1 characterization at a concrete input: the
boundary token is unexpired at time `0`, so validation accepts it. -/
theorem validate_qr_token_result_characterization_witness :
    (validate_qr_token 0 boundaryDB "tok" none).1 = (true, "OK") :=
  (validate_qr_token_result_characterization 0 boundaryDB "tok" none).1.mpr
    ⟨boundaryRow, rfl, le_refl 0, Or.inl rfl⟩

/-- Claim C6: every call to `validate_qr_token`, on every branch, appends
exactly one `qr_scans` audit row recording the attempted token, the outcome
(`1` for accepted, `0` otherwise), the timestamp, and the caller IP. -/
theorem validate_qr_token_appends_one_audit_row
    (now : Int) (db : DB) (token : String) (ip : Option String) :
    (validate_qr_token now db token ip).2.qr_scans =
      db.qr_scans ++
        [{ token := token,
           valid := if (validate_qr_token now db token ip).1.1 then 1 else 0,
           scanned_at := now, ip_address := ip }] := rfl

end PSWS

namespace PSWS

/-- The post-state token table is the incremented table exactly when the call
accepted, else unchanged. -/
theorem validate_qr_token_tokens_eq (now : Int) (db : DB) (token : String) (ip : Option String) :
    (validate_qr_token now db token ip).2.qr_tokens =
      if (validate_qr_token now db token ip).1.1 then applyIncrement db.qr_tokens token
      else db.qr_tokens := rfl

/-- The decision phase accepts exactly when the token is found, unexpired
(in the code's strict sense `¬ expires_at < now`) and not an exhausted
single-use token. -/
theorem validateDecision_true_iff (now : Int) (tokens : List QRTokenRow) (token : String) :
    (validateDecision now tokens token).1 = true ↔
      ∃ row, findToken tokens token = some row ∧ ¬ row.expires_at < now ∧
        ¬(row.single_use = true ∧ 0 < row.used_count) := by
  cases hrow : findToken tokens token with
  | none => simp [validateDecision, hrow]
  | some row =>
    by_cases hexp : row.expires_at < now
    · simp only [validateDecision, hrow, if_pos hexp]
      simp only [Bool.false_eq_true, false_iff]
      rintro ⟨r, hr, hne, -⟩
      cases hr
      exact hne hexp
    · by_cases hcond : (row.single_use && decide (row.used_count > 0)) = true
      · simp only [validateDecision, hrow, if_neg hexp, if_pos hcond]
        rw [Bool.and_eq_true, decide_eq_true_eq] at hcond
        simp only [Bool.false_eq_true, false_iff]
        rintro ⟨r, hr, -, hnc⟩
        cases hr
        exact hnc hcond
      · simp only [validateDecision, hrow, if_neg hexp, if_neg hcond]
        rw [Bool.and_eq_true, decide_eq_true_eq] at hcond
        simp only [true_iff]
        exact ⟨row, rfl, hexp, hcond⟩

/-- Per-row evolution of `used_count` across one `validate_qr_token` call:
never decreased, increased by at most one, and increased only on the
accepting branch and only for the attempted token. -/
theorem validate_used_count_evolution (now : Int) (db : DB) (tk : String) (ip : Option String) :
    (validate_qr_token now db tk ip).2.qr_tokens.length = db.qr_tokens.length ∧
    ∀ (i : Nat) (hi : i < db.qr_tokens.length)
      (hj : i < (validate_qr_token now db tk ip).2.qr_tokens.length),
      db.qr_tokens[i].used_count ≤ (validate_qr_token now db tk ip).2.qr_tokens[i].used_count ∧
      (validate_qr_token now db tk ip).2.qr_tokens[i].used_count ≤
        db.qr_tokens[i].used_count + 1 ∧
      (db.qr_tokens[i].used_count < (validate_qr_token now db tk ip).2.qr_tokens[i].used_count →
        (validate_qr_token now db tk ip).1.1 = true ∧ db.qr_tokens[i].token = tk) := by
  rw [validate_qr_token_tokens_eq]
  by_cases hb : (validate_qr_token now db tk ip).1.1 = true
  · simp only [hb, if_true, applyIncrement, List.length_map, List.getElem_map]
    refine ⟨trivial, fun i hi hj => ?_⟩
    by_cases ht : (db.qr_tokens[i].token == tk) = true
    · rw [if_pos ht]
      exact ⟨Nat.le_succ _, le_refl _, fun _ => ⟨trivial, eq_of_beq ht⟩⟩
    · rw [if_neg ht]
      exact ⟨le_refl _, Nat.le_succ _, fun hlt => absurd hlt (by omega)⟩
  · have hb' : (validate_qr_token now db tk ip).1.1 = false := by
      cases h : (validate_qr_token now db tk ip).1.1
      · rfl
      · exact absurd h hb
    simp only [hb', Bool.false_eq_true, if_false]
    exact ⟨trivial, fun i hi hj => ⟨le_refl _, Nat.le_succ _, fun hlt => absurd hlt (by omega)⟩⟩

/-- With pairwise-distinct token ids (the primary-key invariant), the found
row is the only row carrying the looked-up token. -/
theorem findToken_unique :
    ∀ (tokens : List QRTokenRow) (token : String) (row : QRTokenRow),
      (tokens.map (fun r => r.token)).Nodup →
      findToken tokens token = some row →
      ∀ r ∈ tokens, r.token = token → r = row := by
  intro tokens
  induction tokens with
  | nil =>
    intro token row _ hfind
    exact absurd hfind (by simp [findToken])
  | cons a as ih =>
    intro token row hnd hfind r hr hrt
    rw [List.map_cons, List.nodup_cons] at hnd
    by_cases ha : (a.token == token) = true
    · simp only [findToken, List.find?, ha] at hfind
      cases hfind
      rcases List.mem_cons.mp hr with rfl | hr
      · rfl
      · exact absurd (List.mem_map.mpr ⟨r, hr, by rw [hrt, eq_of_beq ha]⟩) hnd.1
    · simp only [findToken, List.find?, ha] at hfind
      rcases List.mem_cons.mp hr with rfl | hr
      · exact absurd (by simp [hrt] : (r.token == token) = true) (by simpa using ha)
      · exact ih token row hnd.2 hfind r hr hrt

end PSWS

namespace PSWS

/-- Claim C7: for a stored unexpired single-use token with `used_count = 0`,
the first sequential validation returns `(true, "OK")` and sets the token's
`used_count` to exactly `1`; a second sequential validation (still before
expiry) returns `(false, "Token already used")` and leaves the token table
unchanged.  Moreover, across any single call, no row's `used_count` ever
decreases, it grows by at most one, and it grows only on the accepting branch
and only for the attempted token. -/
theorem single_use_token_sequential_validations
    (now₁ now₂ : Int) (db : DB) (token : String) (ip₁ ip₂ : Option String) (row : QRTokenRow)
    (hfind : findToken db.qr_tokens token = some row)
    (hsu : row.single_use = true) (huc : row.used_count = 0)
    (h₁ : now₁ < row.expires_at) (h₂ : now₂ ≤ row.expires_at) :
    (validate_qr_token now₁ db token ip₁).1 = (true, "OK") ∧
    findToken (validate_qr_token now₁ db token ip₁).2.qr_tokens token =
      some { row with used_count := 1 } ∧
    (validate_qr_token now₂ (validate_qr_token now₁ db token ip₁).2 token ip₂).1 =
      (false, "Token already used") ∧
    (validate_qr_token now₂ (validate_qr_token now₁ db token ip₁).2 token ip₂).2.qr_tokens =
      (validate_qr_token now₁ db token ip₁).2.qr_tokens ∧
    (∀ (now : Int) (dbx : DB) (tk : String) (ipx : Option String),
      (validate_qr_token now dbx tk ipx).2.qr_tokens.length = dbx.qr_tokens.length ∧
      ∀ (i : Nat) (hi : i < dbx.qr_tokens.length)
        (hj : i < (validate_qr_token now dbx tk ipx).2.qr_tokens.length),
        dbx.qr_tokens[i].used_count ≤
          (validate_qr_token now dbx tk ipx).2.qr_tokens[i].used_count ∧
        (validate_qr_token now dbx tk ipx).2.qr_tokens[i].used_count ≤
          dbx.qr_tokens[i].used_count + 1 ∧
        (dbx.qr_tokens[i].used_count <
            (validate_qr_token now dbx tk ipx).2.qr_tokens[i].used_count →
          (validate_qr_token now dbx tk ipx).1.1 = true ∧
          dbx.qr_tokens[i].token = tk)) := by
  have hexp₁ : ¬ row.expires_at < now₁ := by omega
  have hd₁ : validateDecision now₁ db.qr_tokens token = (true, "OK") := by
    simp [validateDecision, hfind, hexp₁, huc]
  have hr₁ : (validate_qr_token now₁ db token ip₁).1 = (true, "OK") := by
    rw [validate_qr_token_fst, hd₁]
  have htok₁ : (validate_qr_token now₁ db token ip₁).2.qr_tokens =
      applyIncrement db.qr_tokens token := by
    rw [validate_qr_token_tokens_eq, hr₁]
    rfl
  have hfind₂ : findToken (validate_qr_token now₁ db token ip₁).2.qr_tokens token =
      some { row with used_count := 1 } := by
    rw [htok₁, findToken_applyIncrement, hfind]
    simp [huc]
  have hexp₂ : ¬ ({ row with used_count := 1 } : QRTokenRow).expires_at < now₂ := by
    simpa using (by omega : ¬ row.expires_at < now₂)
  have hd₂ : validateDecision now₂ (validate_qr_token now₁ db token ip₁).2.qr_tokens token =
      (false, "Token already used") := by
    simp [validateDecision, hfind₂, hexp₂, hsu]
  have hr₂ : (validate_qr_token now₂ (validate_qr_token now₁ db token ip₁).2 token ip₂).1 =
      (false, "Token already used") := by
    rw [validate_qr_token_fst, hd₂]
  refine ⟨hr₁, hfind₂, hr₂, ?_, fun now dbx tk ipx => validate_used_count_evolution now dbx tk ipx⟩
  rw [validate_qr_token_tokens_eq, hr₂]
  rfl

/-- Witness for C7 at a concrete single-use token. -/
theorem single_use_token_sequential_validations_witness :
    (validate_qr_token 0 { qr_tokens := [⟨"t", "door", 100, true, 0, 0⟩], qr_scans := [] }
        "t" none).1 = (true, "OK") ∧
    (validate_qr_token 1
        (validate_qr_token 0 { qr_tokens := [⟨"t", "door", 100, true, 0, 0⟩], qr_scans := [] }
          "t" none).2 "t" none).1 = (false, "Token already used") := by
  have h := single_use_token_sequential_validations 0 1
    { qr_tokens := [⟨"t", "door", 100, true, 0, 0⟩], qr_scans := [] } "t" none none
    ⟨"t", "door", 100, true, 0, 0⟩ (by decide) rfl rfl (by decide) (by decide)
  exact ⟨h.1, h.2.2.1⟩

/-- The primary-key and single-use invariant of the token table: token ids are
pairwise distinct, and a single-use token is never used more than once. -/
def TokensInv (tokens : List QRTokenRow) : Prop :=
  (tokens.map (fun r => r.token)).Nodup ∧
  ∀ r ∈ tokens, r.single_use = true → r.used_count ≤ 1

/-- Claim C10: the invariant `single_use = true → used_count ≤ 1` (together
with primary-key uniqueness) holds of every row and is preserved by both
operations: `create_qr` appends exactly one row with `used_count = 0`, and
`validate_qr_token` increments only on the branch where a single-use token
still has `used_count = 0`. -/
theorem token_table_single_use_invariant :
    (∀ (now : Int) (db : DB) (token label : String) (m : Nat) (su : Bool) (db' : DB),
        create_qr now db token label m su = some db' →
        TokensInv db.qr_tokens →
        TokensInv db'.qr_tokens ∧
          db'.qr_tokens = db.qr_tokens ++
            [⟨token, label, now + (m : Int) * 60, su, 0, now⟩]) ∧
    (∀ (now : Int) (db : DB) (token : String) (ip : Option String),
        TokensInv db.qr_tokens →
        TokensInv (validate_qr_token now db token ip).2.qr_tokens) := by
  constructor
  · intro now db token label m su db' hcr hinv
    unfold create_qr at hcr
    by_cases hany : db.qr_tokens.any (fun r => r.token == token) = true
    · rw [if_pos hany] at hcr; cases hcr
    · rw [if_neg hany] at hcr
      cases hcr
      have hnotmem : token ∉ db.qr_tokens.map (fun r => r.token) := by
        intro hmem
        rcases List.mem_map.mp hmem with ⟨r, hr, hrt⟩
        exact hany (List.any_eq_true.mpr ⟨r, hr, by simp [hrt]⟩)
      refine ⟨⟨?_, ?_⟩, rfl⟩
      · rw [List.map_append]
        simp only [List.map_cons, List.map_nil]
        exact List.Nodup.append hinv.1 (List.nodup_singleton _)
          (fun a ha hb => by
            rcases List.mem_singleton.mp hb with rfl
            exact hnotmem ha)
      · intro r hr hsu
        rcases List.mem_append.mp hr with hr | hr
        · exact hinv.2 r hr hsu
        · rcases List.mem_singleton.mp hr with rfl
          exact Nat.zero_le 1
  · intro now db token ip hinv
    rw [validate_qr_token_tokens_eq]
    by_cases hb : (validate_qr_token now db token ip).1.1 = true
    · rw [if_pos hb]
      have hkeys : (applyIncrement db.qr_tokens token).map (fun r => r.token) =
          db.qr_tokens.map (fun r => r.token) := by
        unfold applyIncrement
        rw [List.map_map]
        apply List.map_congr_left
        intro r _
        by_cases h : (r.token == token) = true
        · simp [Function.comp, h]
        · simp [Function.comp, h]
      have hdec : (validateDecision now db.qr_tokens token).1 = true := by
        rw [← validate_qr_token_fst now db token ip]
        exact hb
      rcases (validateDecision_true_iff now db.qr_tokens token).mp hdec with
        ⟨row, hfind, hnexp, hncond⟩
      constructor
      · rw [hkeys]; exact hinv.1
      · intro r hr hsu
        rw [applyIncrement, List.mem_map] at hr
        obtain ⟨r₀, hr₀, rfl⟩ := hr
        by_cases ht : (r₀.token == token) = true
        · rw [if_pos ht] at hsu ⊢
          have hr₀row : r₀ = row :=
            findToken_unique db.qr_tokens token row hinv.1 hfind r₀ hr₀ (eq_of_beq ht)
          have hsu₀ : r₀.single_use = true := by simpa using hsu
          have huc₀ : r₀.used_count = 0 := by
            subst hr₀row
            by_contra h0
            exact hncond ⟨hsu₀, by omega⟩
          simp [huc₀]
        · rw [if_neg ht] at hsu ⊢
          exact hinv.2 r₀ hr₀ hsu
    · rw [if_neg hb]
      exact hinv

/-- Witness for C10: the invariant is preserved across issuing a fresh
single-use token into the empty table and validating it once. -/
theorem token_table_single_use_invariant_witness :
    TokensInv [] ∧
    create_qr 0 { qr_tokens := [], qr_scans := [] } "t" "door" 60 true =
      some { qr_tokens := [⟨"t", "door", 3600, true, 0, 0⟩], qr_scans := [] } ∧
    TokensInv
      (validate_qr_token 5 { qr_tokens := [⟨"t", "door", 3600, true, 0, 0⟩], qr_scans := [] }
        "t" none).2.qr_tokens := by
  refine ⟨⟨List.nodup_nil, fun r hr => absurd hr (List.not_mem_nil r)⟩, by decide, ?_⟩
  exact (token_table_single_use_invariant).2 5
    { qr_tokens := [⟨"t", "door", 3600, true, 0, 0⟩], qr_scans := [] } "t" none
    ⟨by decide, fun r hr hsu => by
      rcases List.mem_singleton.mp hr with rfl
      exact Nat.zero_le 1⟩

/-- Claim C2: an interleaving the unguarded code admits — two concurrent
validations of one fresh single-use, unexpired token, where both reads
precede both writes — makes **both** calls return `(true, "OK")` and drives
`used_count` to `2`.  The claimed "exactly one success" therefore fails: the
read-check-increment sequence of `validate_qr_token` is not atomic. -/
theorem raced_single_use_double_success :
    (racedValidatePair 0 { qr_tokens := [⟨"t", "gate", 100, true, 0, 0⟩], qr_scans := [] }
        "t" none none).1 = (true, "OK") ∧
    (racedValidatePair 0 { qr_tokens := [⟨"t", "gate", 100, true, 0, 0⟩], qr_scans := [] }
        "t" none none).2.1 = (true, "OK") ∧
    (racedValidatePair 0 { qr_tokens := [⟨"t", "gate", 100, true, 0, 0⟩], qr_scans := [] }
        "t" none none).2.2.qr_tokens = [⟨"t", "gate", 100, true, 2, 0⟩] := by
  refine ⟨rfl, rfl, by decide⟩

end PSWS

namespace PSWS

/-- `ConnectionManager` (`backend/app.py` lines 67-86): the live set of
subscriber connections.  Connection handles are modelled as natural numbers;
the Python `set[WebSocket]` is a `Finset`. -/
structure ConnectionManager where
  connections : Finset Nat
deriving DecidableEq

/-- `connect`: `self.connections.add(websocket)` — idempotent set insert. -/
def connect (m : ConnectionManager) (ws : Nat) : ConnectionManager :=
  ⟨insert ws m.connections⟩

/-- `disconnect`: `self.connections.discard(websocket)` — idempotent erase. -/
def disconnect (m : ConnectionManager) (ws : Nat) : ConnectionManager :=
  ⟨m.connections.erase ws⟩

/-- `broadcast` (`backend/app.py` lines 78-86).  `sendOk c` tells whether
`await conn.send_json(payload)` succeeds for handle `c` during this pass
(an exception means `false`).  The loop iterates a snapshot
(`list(self.connections)`), collects the failing handles in `dead`, and only
after the full pass disconnects them one by one.  Returns the new manager,
the snapshot of attempted handles, and the set of handles whose delivery
succeeded. -/
def broadcast (sendOk : Nat → Bool) (m : ConnectionManager) :
    ConnectionManager × Finset Nat × Finset Nat :=
  let snapshot := m.connections
  let dead := snapshot.filter (fun c => sendOk c = false)
  let delivered := snapshot.filter (fun c => sendOk c = true)
  ((dead.sort (fun a b => a ≤ b)).foldl (fun mm c => disconnect mm c) m, snapshot, delivered)

/-- Disconnecting every handle of a list removes exactly that list. -/
theorem foldl_disconnect_connections (l : List Nat) (m : ConnectionManager) :
    (l.foldl (fun mm c => disconnect mm c) m).connections = m.connections \ l.toFinset := by
  induction l generalizing m with
  | nil => simp
  | cons a l ih =>
    rw [List.foldl_cons, ih]
    ext x
    simp only [disconnect, Finset.mem_sdiff, Finset.mem_erase, List.toFinset_cons,
      Finset.mem_insert, List.mem_toFinset]
    tauto

/-- The post-broadcast live set drops exactly the handles that failed. -/
theorem broadcast_connections_eq (sendOk : Nat → Bool) (m : ConnectionManager) :
    (broadcast sendOk m).1.connections =
      m.connections \ m.connections.filter (fun c => sendOk c = false) := by
  show (((m.connections.filter (fun c => sendOk c = false)).sort (fun a b => a ≤ b)).foldl
      (fun mm c => disconnect mm c) m).connections = _
  rw [foldl_disconnect_connections, Finset.sort_toFinset]

/-- Claim C5: one `broadcast` pass attempts delivery to every handle in the
point-in-time snapshot of the live set; a failing handle does not prevent
delivery to any succeeding handle; every failing handle is removed from the
live set only after the pass, so it is absent from the snapshot of the next
`broadcast` while the surviving handles still receive the next event. -/
theorem broadcast_failure_isolation_and_deferred_removal
    (m : ConnectionManager) (sendOk₁ sendOk₂ : Nat → Bool) (c : Nat) :
    (broadcast sendOk₁ m).2.1 = m.connections ∧
    (c ∈ m.connections → sendOk₁ c = true → c ∈ (broadcast sendOk₁ m).2.2) ∧
    (c ∈ m.connections → sendOk₁ c = false → c ∉ (broadcast sendOk₁ m).1.connections) ∧
    (c ∈ (broadcast sendOk₁ m).1.connections ↔ c ∈ m.connections ∧ sendOk₁ c = true) ∧
    (c ∈ m.connections → sendOk₁ c = true → sendOk₂ c = true →
      c ∈ (broadcast sendOk₂ (broadcast sendOk₁ m).1).2.2) ∧
    (c ∈ m.connections → sendOk₁ c = false →
      c ∉ (broadcast sendOk₂ (broadcast sendOk₁ m).1).2.1) := by
  have hdel : ∀ (s : Nat → Bool) (mm : ConnectionManager),
      (broadcast s mm).2.2 = mm.connections.filter (fun x => s x = true) := fun _ _ => rfl
  have hsnap : ∀ (s : Nat → Bool) (mm : ConnectionManager),
      (broadcast s mm).2.1 = mm.connections := fun _ _ => rfl
  have hmem : ∀ (s : Nat → Bool) (mm : ConnectionManager) (x : Nat),
      x ∈ (broadcast s mm).1.connections ↔ x ∈ mm.connections ∧ s x = true := by
    intro s mm x
    rw [broadcast_connections_eq]
    simp only [Finset.mem_sdiff, Finset.mem_filter]
    cases h : s x <;> tauto
  refine ⟨rfl, ?_, ?_, hmem sendOk₁ m c, ?_, ?_⟩
  · intro hc hs
    rw [hdel]
    exact Finset.mem_filter.mpr ⟨hc, hs⟩
  · intro hc hs
    rw [hmem]
    rintro ⟨-, hs'⟩
    rw [hs] at hs'
    cases hs'
  · intro hc hs₁ hs₂
    rw [hdel]
    exact Finset.mem_filter.mpr ⟨(hmem sendOk₁ m c).mpr ⟨hc, hs₁⟩, hs₂⟩
  · intro hc hs
    rw [hsnap, hmem]
    rintro ⟨-, hs'⟩
    rw [hs] at hs'
    cases hs'

/-- Witness for C5 with three connected subscribers where delivery to
subscriber 2 fails: 1 receives the first event, 2 is gone from the next
pass's snapshot, and 3 still receives the second event. -/
theorem broadcast_failure_isolation_witness :
    (1 : Nat) ∈ (broadcast (fun c => decide (c ≠ 2)) ⟨{1, 2, 3}⟩).2.2 ∧
    (2 : Nat) ∉
      (broadcast (fun _ => true) (broadcast (fun c => decide (c ≠ 2)) ⟨{1, 2, 3}⟩).1).2.1 ∧
    (3 : Nat) ∈
      (broadcast (fun _ => true) (broadcast (fun c => decide (c ≠ 2)) ⟨{1, 2, 3}⟩).1).2.2 := by
  refine ⟨?_, ?_, ?_⟩
  · exact (broadcast_failure_isolation_and_deferred_removal ⟨{1, 2, 3}⟩
      (fun c => decide (c ≠ 2)) (fun _ => true) 1).2.1 (by decide) (by decide)
  · exact (broadcast_failure_isolation_and_deferred_removal ⟨{1, 2, 3}⟩
      (fun c => decide (c ≠ 2)) (fun _ => true) 2).2.2.2.2.2 (by decide) (by decide)
  · exact (broadcast_failure_isolation_and_deferred_removal ⟨{1, 2, 3}⟩
      (fun c => decide (c ≠ 2)) (fun _ => true) 3).2.2.2.2.1 (by decide) (by decide) (by decide)

end PSWS

namespace PSWS

/-- One verse object of a provider response; each field is `verse.get(...)`,
absent keys being `none`. -/
structure VerseUnit where
  book_name : Option String
  chapter : Option String
  verse : Option String
  text : Option String
deriving DecidableEq, Repr

/-- The parsed JSON body of one bible-api.com response: `data.get("verses")`
and `data.get("text")`. -/
structure ApiResponse where
  verses : Option (List VerseUnit)
  text : Option String
deriving DecidableEq, Repr

/-- The UTF-8 bytes of one character. -/
def utf8Bytes (c : Char) : List Nat :=
  let n := c.toNat
  if n < 0x80 then [n]
  else if n < 0x800 then [0xC0 + n / 0x40, 0x80 + n % 0x40]
  else if n < 0x10000 then [0xE0 + n / 0x1000, 0x80 + (n / 0x40) % 0x40, 0x80 + n % 0x40]
  else [0xF0 + n / 0x40000, 0x80 + (n / 0x1000) % 0x40, 0x80 + (n / 0x40) % 0x40, 0x80 + n % 0x40]

/-- Uppercase hexadecimal digit. -/
def hexDigit (n : Nat) : Char :=
  if n < 10 then Char.ofNat ('0'.toNat + n) else Char.ofNat ('A'.toNat + (n - 10))

/-- `urllib.parse.quote` on one character: ASCII letters, digits, `_.-~` and
the default-safe `/` pass through; everything else is percent-encoded per
UTF-8 byte. -/
def quoteChar (c : Char) : List Char :=
  if c.isAlphanum || c = '_' || c = '.' || c = '-' || c = '~' || c = '/' then [c]
  else (utf8Bytes c).foldr (fun b acc => '%' :: hexDigit (b / 16) :: hexDigit (b % 16) :: acc) []

/-- `urllib.parse.quote(reference)`. -/
def quote (s : String) : String :=
  ⟨s.data.foldr (fun c acc => quoteChar c ++ acc) []⟩

/-- The URL `fetch_scripture` builds for a reference. -/
def bibleApiUrl (reference : String) : String :=
  "https://bible-api.com/" ++ quote reference

/-- `reference in verse_cache` / `verse_cache[reference]` on the module-level
dict (`backend/app.py` line 90). -/
def dictLookup (cache : List (String × ApiResponse)) (k : String) : Option ApiResponse :=
  (cache.find? (fun p => p.1 == k)).map (fun p => p.2)

/-- `verse_cache[reference] = data`: replace in place if the key exists,
else append (Python dicts preserve insertion order). -/
def dictInsert (cache : List (String × ApiResponse)) (k : String) (v : ApiResponse) :
    List (String × ApiResponse) :=
  if cache.any (fun p => p.1 == k) then cache.map (fun p => if p.1 == k then (k, v) else p)
  else cache ++ [(k, v)]

/-- `fetch_scripture(reference)` (`backend/app.py` lines 169-180).
`provider` stands for the external HTTP collaborator: applied to the built
URL it returns the parsed body, or an error for any transport, HTTP-status
or parse failure (those exceptions propagate and nothing is cached).
Returns the outcome, the cache afterwards, and whether a network call was
made. -/
def fetch_scripture (provider : String → Except String ApiResponse)
    (cache : List (String × ApiResponse)) (reference : String) :
    Except String ApiResponse × List (String × ApiResponse) × Bool :=
  match dictLookup cache reference with
  | some v => (Except.ok v, cache, false)
  | none =>
    match provider (bibleApiUrl reference) with
    | Except.ok data => (Except.ok data, dictInsert cache reference data, true)
    | Except.error e => (Except.error e, cache, true)

/-- On a miss, the insert is an append: the key is absent. -/
theorem dictInsert_of_lookup_none (cache : List (String × ApiResponse)) (k : String)
    (v : ApiResponse) (h : dictLookup cache k = none) :
    dictInsert cache k v = cache ++ [(k, v)] := by
  have hfind : cache.find? (fun p => p.1 == k) = none := by
    cases hf : cache.find? (fun p => p.1 == k) with
    | none => rfl
    | some p => rw [dictLookup, hf] at h; cases h
  have hany : ¬ cache.any (fun p => p.1 == k) = true := by
    intro hn
    rcases List.any_eq_true.mp hn with ⟨p, hp, hpk⟩
    exact (List.find?_eq_none.mp hfind p hp) hpk
  rw [dictInsert, if_neg hany]

/-- A stored entry survives appending new entries. -/
theorem dictLookup_append_of_some (cache l : List (String × ApiResponse)) (k : String)
    (v : ApiResponse) (h : dictLookup cache k = some v) :
    dictLookup (cache ++ l) k = some v := by
  rw [dictLookup] at h ⊢
  cases hf : cache.find? (fun p => p.1 == k) with
  | none => rw [hf] at h; cases h
  | some p =>
    rw [hf] at h
    rw [List.find?_append, hf]
    exact h

/-- After an append-insert, the new key is found with the new value. -/
theorem dictLookup_append_self (cache : List (String × ApiResponse)) (k : String)
    (v : ApiResponse) (h : dictLookup cache k = none) :
    dictLookup (cache ++ [(k, v)]) k = some v := by
  have hfind : cache.find? (fun p => p.1 == k) = none := by
    cases hf : cache.find? (fun p => p.1 == k) with
    | none => rfl
    | some p => rw [dictLookup, hf] at h; cases h
  rw [dictLookup, List.find?_append, hfind]
  simp [List.find?]

/-- Claim C8: a cache hit returns the stored value with no network call and
an unchanged cache; a successful network fetch stores the raw response under
the literal reference key before returning; stored entries are never
invalidated by later fetches of any reference, so a reference already seen
is never fetched over the network again. -/
theorem fetch_scripture_cache_contract
    (provider : String → Except String ApiResponse)
    (cache : List (String × ApiResponse)) (reference ref' : String) (v : ApiResponse) :
    (dictLookup cache reference = some v →
      fetch_scripture provider cache reference = (Except.ok v, cache, false)) ∧
    (∀ d, dictLookup cache reference = none →
      provider (bibleApiUrl reference) = Except.ok d →
      fetch_scripture provider cache reference =
        (Except.ok d, dictInsert cache reference d, true) ∧
      dictLookup (fetch_scripture provider cache reference).2.1 reference = some d) ∧
    (dictLookup cache reference = some v →
      dictLookup (fetch_scripture provider cache ref').2.1 reference = some v) ∧
    (∀ d, dictLookup cache reference = none →
      provider (bibleApiUrl reference) = Except.ok d →
      (fetch_scripture provider (fetch_scripture provider cache reference).2.1
          reference).2.2 = false) := by
  refine ⟨?_, ?_, ?_, ?_⟩
  · intro h
    unfold fetch_scripture
    rw [h]
  · intro d hnone hp
    have heq : fetch_scripture provider cache reference =
        (Except.ok d, dictInsert cache reference d, true) := by
      unfold fetch_scripture
      rw [hnone, hp]
    refine ⟨heq, ?_⟩
    rw [heq]
    show dictLookup (dictInsert cache reference d) reference = some d
    rw [dictInsert_of_lookup_none cache reference d hnone]
    exact dictLookup_append_self cache reference d hnone
  · intro h
    cases hl : dictLookup cache ref' with
    | some w =>
      have : fetch_scripture provider cache ref' = (Except.ok w, cache, false) := by
        unfold fetch_scripture; rw [hl]
      rw [this]
      exact h
    | none =>
      cases hp : provider (bibleApiUrl ref') with
      | ok d =>
        have : fetch_scripture provider cache ref' =
            (Except.ok d, dictInsert cache ref' d, true) := by
          unfold fetch_scripture; rw [hl, hp]
        rw [this]
        show dictLookup (dictInsert cache ref' d) reference = some v
        rw [dictInsert_of_lookup_none cache ref' d hl]
        exact dictLookup_append_of_some cache _ reference v h
      | error e =>
        have : fetch_scripture provider cache ref' = (Except.error e, cache, true) := by
          unfold fetch_scripture; rw [hl, hp]
        rw [this]
        exact h
  · intro d hnone hp
    have heq : fetch_scripture provider cache reference =
        (Except.ok d, dictInsert cache reference d, true) := by
      unfold fetch_scripture
      rw [hnone, hp]
    rw [heq]
    show (fetch_scripture provider (dictInsert cache reference d) reference).2.2 = false
    have hl : dictLookup (dictInsert cache reference d) reference = some d := by
      rw [dictInsert_of_lookup_none cache reference d hnone]
      exact dictLookup_append_self cache reference d hnone
    unfold fetch_scripture
    rw [hl]

/-- Witness for C8: a concrete empty cache, a provider returning a one-verse
response; the second fetch of the same reference makes no network call. -/
theorem fetch_scripture_cache_contract_witness :
    (fetch_scripture
        (fun _ => Except.ok { verses := some [⟨some "John", some "3", some "16", some "For God"⟩],
                              text := some "For God" })
        ((fetch_scripture
            (fun _ => Except.ok { verses := some [⟨some "John", some "3", some "16", some "For God"⟩],
                                  text := some "For God" })
            [] "John 3:16").2.1) "John 3:16").2.2 = false := by
  exact (fetch_scripture_cache_contract
      (fun _ => Except.ok { verses := some [⟨some "John", some "3", some "16", some "For God"⟩],
                            text := some "For God" })
      [] "John 3:16" "John 3:16"
      { verses := some [⟨some "John", some "3", some "16", some "For God"⟩],
        text := some "For God" }).2.2.2
    { verses := some [⟨some "John", some "3", some "16", some "For God"⟩], text := some "For God" }
    rfl rfl

end PSWS

namespace PSWS

/-- The `BOOKS` list (`backend/app.py` lines 24-34), in source order. -/
def BOOKS : List String :=
  ["Genesis", "Exodus", "Leviticus", "Numbers", "Deuteronomy", "Joshua", "Judges", "Ruth",
   "1 Samuel", "2 Samuel", "1 Kings", "2 Kings", "1 Chronicles", "2 Chronicles", "Ezra", "Nehemiah",
   "Esther", "Job", "Psalm", "Psalms", "Proverbs", "Ecclesiastes", "Song of Solomon", "Isaiah",
   "Jeremiah", "Lamentations", "Ezekiel", "Daniel", "Hosea", "Joel", "Amos", "Obadiah", "Jonah",
   "Micah", "Nahum", "Habakkuk", "Zephaniah", "Haggai", "Zechariah", "Malachi", "Matthew", "Mark",
   "Luke", "John", "Acts", "Romans", "1 Corinthians", "2 Corinthians", "Galatians", "Ephesians",
   "Philippians", "Colossians", "1 Thessalonians", "2 Thessalonians", "1 Timothy", "2 Timothy",
   "Titus", "Philemon", "Hebrews", "James", "1 Peter", "2 Peter", "1 John", "2 John", "3 John",
   "Jude", "Revelation"]

/-- Stable insertion step for a descending-length sort: `x` is placed before
the first strictly shorter element, hence after every earlier element of
equal length. -/
def stableInsertDesc : List String → String → List String
  | [], x => [x]
  | y :: ys, x => if y.length < x.length then x :: y :: ys else y :: stableInsertDesc ys x

/-- The alternation order of `BOOK_PATTERN`:
`sorted((re.escape(book) for book in BOOKS), key=len, reverse=True)`.
`re.escape` leaves these names (letters, digits, spaces) unchanged, and
Python's `sorted` is specified to be stable, so the alternation is the unique
stable descending-length rearrangement of `BOOKS` — computed here by a
stable insertion sort. -/
def BOOK_PATTERN_LIST : List String :=
  BOOKS.foldl stableInsertDesc []

/-- Case-insensitive character comparison, as `re.IGNORECASE` performs on
these ASCII patterns. -/
def ciEq (p c : Char) : Bool := p.toLower == c.toLower

/-- Match a pattern literal case-insensitively as a prefix of the input;
return the consumed input text and the rest. -/
def matchLitCI : List Char → List Char → Option (List Char × List Char)
  | [], cs => some ([], cs)
  | _ :: _, [] => none
  | p :: ps, c :: cs =>
    if ciEq p c then (matchLitCI ps cs).map (fun r => (c :: r.1, r.2)) else none

/-- Character classes appearing in `SCRIPTURE_REGEX` once the doubled
backslashes of the raw f-string are taken literally.  In the compiled
pattern, `\\b`, `\\s`, `\\d` are the two-token sequences
(escaped backslash, literal letter): they match a literal `\` character
followed by the letter (case-insensitively, because of `re.IGNORECASE`). -/
def isBChar (c : Char) : Bool := (c == 'b') || (c == 'B')

/-- The letter of the (mis-)escaped `\\s`. -/
def isSChar (c : Char) : Bool := (c == 's') || (c == 'S')

/-- The letter of the (mis-)escaped `\\d`. -/
def isDChar (c : Char) : Bool := (c == 'd') || (c == 'D')

/-- The class `[:\\s]` = { ':', '\', 's' } (plus 'S' under `IGNORECASE`). -/
def isSepClass (c : Char) : Bool :=
  (c == ':') || (c == '\\') || (c == 's') || (c == 'S')

/-- Length of the maximal prefix run of class characters. -/
def maxRun (cls : Char → Bool) : List Char → Nat
  | [] => 0
  | c :: cs => if cls c then maxRun cls cs + 1 else 0

/-- Try consuming each candidate length in turn (Python's backtracking tries
greedy lengths longest-first); the continuation receives the consumed
characters and the rest. -/
def tryLens {α : Type} (cs : List Char) (k : List Char → List Char → Option α) :
    List Nat → Option α
  | [] => none
  | n :: ns =>
    match k (cs.take n) (cs.drop n) with
    | some r => some r
    | none => tryLens cs k ns

/-- Greedy bounded repetition of a single-character class with backtracking:
lengths from `min (maxRun) hi` down to `lo`. -/
def greedyRange {α : Type} (cls : Char → Bool) (lo hi : Nat) (cs : List Char)
    (k : List Char → List Char → Option α) : Option α :=
  let m := min (maxRun cls cs) hi
  tryLens cs k ((List.range' lo (m + 1 - lo)).reverse)

/-- The book alternation: try the alternatives in pattern order, with full
backtracking into later alternatives when the continuation fails. -/
def tryBooks {α : Type} (books : List String) (cs : List Char)
    (k : List Char → List Char → Option α) : Option α :=
  match books with
  | [] => none
  | b :: rest =>
    match matchLitCI b.data cs with
    | some (txt, cs') =>
      match k txt cs' with
      | some r => some r
      | none => tryBooks rest cs k
    | none => tryBooks rest cs k

/-- One raw `SCRIPTURE_REGEX` match: the captured groups `book`, `chapter`,
`verse_start`, `verse_end` (the numeric captures include the literal
backslash that the pattern's `\\d` consumes). -/
structure RawMatch where
  book : String
  chapter : String
  verse_start : Option String
  verse_end : Option String
deriving DecidableEq, Repr

/-- The closing (mis-)escaped `\\b`: a literal `\` then `b`/`B`. -/
def matchClose (cs : List Char) : Option (List Char) :=
  match cs with
  | '\\' :: c :: rest => if isBChar c then some rest else none
  | _ => none

/-- A numeric capture `\\d{1,3}`: a literal `\` then one to three `d`/`D`,
captured together with the backslash. -/
def matchVerseNum {α : Type} (cs : List Char) (k : List Char → List Char → Option α) :
    Option α :=
  match cs with
  | '\\' :: cs' => greedyRange isDChar 1 3 cs' (fun ds rest => k ('\\' :: ds) rest)
  | _ => none

/-- The optional verse part `(?:[:\\s](?P<verse_start>\\d{1,3})` followed by
the optional `(?:-(?P<verse_end>\\d{1,3}))?)?`, then the closing `\\b`;
both optional groups are greedy (present-first) with backtracking. -/
def matchTail (bookTxt chapTxt : List Char) (cs : List Char) :
    Option (RawMatch × List Char) :=
  let withVerse : Option (RawMatch × List Char) :=
    match cs with
    | c :: cs₁ =>
      if isSepClass c then
        matchVerseNum cs₁ (fun vsTxt cs₂ =>
          let withEnd : Option (RawMatch × List Char) :=
            match cs₂ with
            | '-' :: cs₃ =>
              matchVerseNum cs₃ (fun veTxt cs₄ =>
                (matchClose cs₄).map (fun rest =>
                  (⟨⟨bookTxt⟩, ⟨chapTxt⟩, some ⟨vsTxt⟩, some ⟨veTxt⟩⟩, rest)))
            | _ => none
          match withEnd with
          | some r => some r
          | none =>
            (matchClose cs₂).map (fun rest =>
              (⟨⟨bookTxt⟩, ⟨chapTxt⟩, some ⟨vsTxt⟩, none⟩, rest)))
      else none
    | [] => none
  match withVerse with
  | some r => some r
  | none => (matchClose cs).map (fun rest => (⟨⟨bookTxt⟩, ⟨chapTxt⟩, none, none⟩, rest))

/-- Attempt one anchored match of `SCRIPTURE_REGEX` at the head of `cs`.

The pattern source is the raw f-string
`rf"\\b(?P<book>{BOOK_PATTERN})\\s+(?P<chapter>\\d{{1,3}})(?:[:\\s](?P<verse_start>\\d{{1,3}})(?:-(?P<verse_end>\\d{{1,3}}))?)?\\b"`
(`backend/app.py` lines 37-40).  Because the string is raw, every `\\`
reaches `re.compile` as two characters, i.e. an escaped literal backslash:
the compiled pattern starts with a literal `\` + `b`, uses literal `\` + a
run of `s` as the separator, literal `\` + up to three `d` as each number,
and ends with a literal `\` + `b`. -/
def matchAt (cs : List Char) : Option (RawMatch × List Char) :=
  match cs with
  | '\\' :: c1 :: cs₁ =>
    if isBChar c1 then
      tryBooks BOOK_PATTERN_LIST cs₁ (fun bookTxt cs₂ =>
        match cs₂ with
        | '\\' :: cs₃ =>
          greedyRange isSChar 1 cs₃.length cs₃ (fun _ cs₄ =>
            match cs₄ with
            | '\\' :: cs₅ =>
              greedyRange isDChar 1 3 cs₅ (fun chDs cs₆ =>
                matchTail bookTxt ('\\' :: chDs) cs₆)
            | _ => none)
        | _ => none)
    else none
  | _ => none

/-- `SCRIPTURE_REGEX.finditer`: scan left to right, taking the leftmost
match, then continue at its end.  Every match consumes at least two
characters, so `fuel = length` never runs out before the input does. -/
def scanAux : Nat → List Char → List RawMatch
  | 0, _ => []
  | _, [] => []
  | fuel + 1, c :: rest =>
    match matchAt (c :: rest) with
    | some (m, cs') => m :: scanAux fuel cs'
    | none => scanAux fuel rest

/-- All matches of `SCRIPTURE_REGEX` in `text`, in order. -/
def finditer (text : String) : List RawMatch :=
  scanAux text.data.length text.data

/-- Python `str.title()`: uppercase a cased character that follows a
non-cased one, lowercase the rest. -/
def titleCaseAux : Bool → List Char → List Char
  | _, [] => []
  | prevCased, c :: cs =>
    let cased := c.isAlpha
    (if cased then (if prevCased then c.toLower else c.toUpper) else c) ::
      titleCaseAux cased cs

/-- Python `str.title()`. -/
def titleCase (s : String) : String := ⟨titleCaseAux false s.data⟩

/-- Python `str.lower()` on these ASCII names: per-character lowering. -/
def pyLower (s : String) : String := ⟨s.data.map Char.toLower⟩

/-- `canonical_book` (`backend/app.py` lines 144-149): first registered book
equal case-insensitively, else title-case the raw match. -/
def canonical_book (book : String) : String :=
  match BOOKS.find? (fun candidate => pyLower candidate == pyLower book) with
  | some candidate => candidate
  | none => titleCase book

/-- Build one canonical reference string from a match, exactly as the
`if`/`elif`/`else` in `parse_scripture_references` does. -/
def buildRef (m : RawMatch) : String :=
  let book := canonical_book m.book
  match m.verse_start, m.verse_end with
  | some vs, some ve => book ++ " " ++ m.chapter ++ ":" ++ vs ++ "-" ++ ve
  | some vs, none => book ++ " " ++ m.chapter ++ ":" ++ vs
  | none, _ => book ++ " " ++ m.chapter

/-- `list(dict.fromkeys(refs))`: de-duplicate keeping each string's first
occurrence, in insertion order. -/
def dedupKeys (refs : List String) : List String :=
  refs.foldl (fun acc r => if r ∈ acc then acc else acc ++ [r]) []

/-- `parse_scripture_references` (`backend/app.py` lines 152-166). -/
def parse_scripture_references (text : String) : List String :=
  dedupKeys ((finditer text).map buildRef)

end PSWS

namespace PSWS

/-- Modelled from the spec (§4.1): "identical canonical strings collapse to a
single entry, keeping the position of first occurrence" — keep each string's
first occurrence, in order.  Stated independently of the code's
`list(dict.fromkeys(refs))` so the two can be compared. -/
def specKeepFirst : List String → List String
  | [] => []
  | x :: xs => x :: specKeepFirst (xs.filter (fun y => y != x))
termination_by l => l.length
decreasing_by
  simp only [List.length_cons]
  exact Nat.lt_succ_of_le (List.length_filter_le _ _)

/-- `specKeepFirst` keeps exactly the elements of its input. -/
theorem mem_specKeepFirst (a : String) : ∀ (l : List String), a ∈ specKeepFirst l ↔ a ∈ l := by
  intro l
  induction l using specKeepFirst.induct with
  | case1 => rw [specKeepFirst]
  | case2 x xs ih =>
    rw [specKeepFirst]
    simp only [List.mem_cons, ih, List.mem_filter, bne_iff_ne]
    by_cases hax : a = x
    · simp [hax]
    · simp [hax]

/-- `specKeepFirst` contains no duplicates. -/
theorem nodup_specKeepFirst : ∀ (l : List String), (specKeepFirst l).Nodup := by
  intro l
  induction l using specKeepFirst.induct with
  | case1 => rw [specKeepFirst]; exact List.nodup_nil
  | case2 x xs ih =>
    rw [specKeepFirst]
    refine List.nodup_cons.mpr ⟨?_, ih⟩
    rw [mem_specKeepFirst]
    simp

/-- `specKeepFirst` is an order-preserving subsequence of its input. -/
theorem specKeepFirst_sublist : ∀ (l : List String), (specKeepFirst l).Sublist l := by
  intro l
  induction l using specKeepFirst.induct with
  | case1 => rw [specKeepFirst]
  | case2 x xs ih =>
    rw [specKeepFirst]
    exact (ih.trans (List.filter_sublist xs)).cons₂ x

/-- The fold implementing `list(dict.fromkeys(...))`, generalized over its
accumulator. -/
theorem dedupKeys_go (l : List String) : ∀ acc : List String,
    l.foldl (fun acc r => if r ∈ acc then acc else acc ++ [r]) acc =
      acc ++ specKeepFirst (l.filter (fun y => decide (y ∉ acc))) := by
  induction l with
  | nil => intro acc; simp [specKeepFirst]
  | cons x xs ih =>
    intro acc
    rw [List.foldl_cons, List.filter_cons]
    by_cases hx : x ∈ acc
    · rw [if_pos hx, ih acc]
      have : decide (x ∉ acc) = false := by simp [hx]
      rw [this]
      simp only [Bool.false_eq_true, if_false]
    · rw [if_neg hx, ih (acc ++ [x])]
      have hd : decide (x ∉ acc) = true := by simp [hx]
      rw [hd, if_pos rfl]
      rw [specKeepFirst]
      have hfe : xs.filter (fun y => decide (y ∉ acc ++ [x])) =
          (xs.filter (fun y => decide (y ∉ acc))).filter (fun y => y != x) := by
        rw [List.filter_filter]
        apply List.filter_congr
        intro y _
        by_cases hyx : y = x
        · subst hyx
          simp [List.mem_append]
        · by_cases hya : y ∈ acc
          · simp [List.mem_append, hya, hyx]
          · simp [List.mem_append, hya, hyx]
      rw [hfe]
      rw [List.append_assoc, List.singleton_append]

/-- The code's `list(dict.fromkeys(refs))` equals the spec's keep-first
de-duplication. -/
theorem dedupKeys_eq_specKeepFirst (l : List String) : dedupKeys l = specKeepFirst l := by
  rw [dedupKeys, dedupKeys_go l [], List.nil_append]
  congr 1
  apply List.filter_eq_self.mpr
  intro a _
  simp

/-- Claim C3: for every input text, `parse_scripture_references` (a total
function — it never raises) returns exactly the keep-first de-duplication of
the canonical strings of the regex matches: the result has no duplicates, is
an order-preserving subsequence of the match list containing exactly its
elements (so first-occurrence order is preserved), and is empty when there is
no match. -/
theorem parse_scripture_references_nodup_first_occurrence (text : String) :
    parse_scripture_references text = specKeepFirst ((finditer text).map buildRef) ∧
    (parse_scripture_references text).Nodup ∧
    (∀ s, s ∈ parse_scripture_references text ↔ s ∈ (finditer text).map buildRef) ∧
    (parse_scripture_references text).Sublist ((finditer text).map buildRef) ∧
    (finditer text = [] → parse_scripture_references text = []) := by
  have he : parse_scripture_references text = specKeepFirst ((finditer text).map buildRef) := by
    rw [parse_scripture_references, dedupKeys_eq_specKeepFirst]
  refine ⟨he, ?_, ?_, ?_, ?_⟩
  · rw [he]; exact nodup_specKeepFirst _
  · intro s; rw [he]; exact mem_specKeepFirst s _
  · rw [he]; exact specKeepFirst_sublist _
  · intro h
    rw [he, h, List.map_nil, specKeepFirst]

/-- Witness for C3 at a concrete matchless text. -/
theorem parse_scripture_references_nodup_first_occurrence_witness :
    parse_scripture_references "For God so loved the world" = [] :=
  (parse_scripture_references_nodup_first_occurrence
    "For God so loved the world").2.2.2.2 (by decide)

/-- Claim C4, evaluated on the code.  The book alternation IS ordered by
descending name length (second conjunct).  But the pattern is built from a
*raw* f-string, so each intended `\b`, `\s`, `\d` reaches `re.compile` as
`\\b`, `\\s`, `\\d` — an escaped literal backslash followed by a letter.
`"1 John 3:16"` contains no backslash, so `SCRIPTURE_REGEX` finds no match
and the parse is `[]`, not a `"1 John ..."` reference.  Only backslash-laden
text matches (third conjunct) — there the longer book `1 John` is indeed
preferred to `John`. -/
theorem parse_one_john_evaluation :
    parse_scripture_references "1 John 3:16" = [] ∧
    List.Pairwise (fun a b => b.length ≤ a.length) BOOK_PATTERN_LIST ∧
    parse_scripture_references "\\b1 John\\s\\d:\\dd\\b" = ["1 John \\d:\\dd"] := by
  refine ⟨by decide, by decide, by decide⟩

end PSWS

namespace PSWS

/-- A broadcast payload of the emitter pipeline (`{"type": ...}` dicts). -/
inductive Event where
  | error (message reference : String)
  | verse (reference text speaker source requested_reference : String)
deriving DecidableEq, Repr

/-- A row of the `verse_logs` table. -/
structure VerseLogRow where
  reference : String
  text : String
  speaker : String
  source : String
  created_at : Int
deriving DecidableEq, Repr

/-- Python truthiness of `data.get("text")`: present and non-empty. -/
def pyTruthy (t : Option String) : Bool :=
  match t with
  | some s => s != ""
  | none => false

/-- Python `reference.split()`: split on whitespace runs, dropping empties. -/
def pySplit (s : String) : List String :=
  (s.split (fun c => c.isWhitespace)).filter (fun t => t != "")

/-- `f"{verse.get('book_name','')} {verse.get('chapter','')}:{verse.get('verse','')}".strip()`. -/
def verseRefOf (v : VerseUnit) : String :=
  ((v.book_name.getD "") ++ " " ++ (v.chapter.getD "") ++ ":" ++ (v.verse.getD "")).trim

/-- `str(verse.get("text", "")).strip()`. -/
def verseTextOf (v : VerseUnit) : String := (v.text.getD "").trim

/-- The per-verse loop of `emit_reference`: one `verse` event broadcast and
one `verse_logs` row per verse unit, in provider order.  (The
`asyncio.sleep` pacing between iterations suspends only this task and does
not change which events and rows are produced.) -/
def emitLoop (verses : List VerseUnit) (reference speaker source : String) (now : Int) :
    List Event × List VerseLogRow :=
  (verses.map (fun v => Event.verse (verseRefOf v) (verseTextOf v) speaker source reference),
   verses.map (fun v => ⟨verseRefOf v, verseTextOf v, speaker, source, now⟩))

/-- `emit_reference` (`backend/app.py` lines 183-213), purified: instead of
calling `manager.broadcast` and inserting into `verse_logs`, it returns the
list of events broadcast and the list of rows appended.  `fetchRes` is the
outcome of `fetch_scripture` for this reference.  On an exception the
`except` branch broadcasts one error event and returns.  The `none` result
models the uncaught `IndexError` of `reference.split()[0]` when a
verse-less-but-texty response meets an all-whitespace reference; every other
path returns normally. -/
def emit_reference (fetchRes : Except String ApiResponse)
    (reference speaker source : String) (now : Int) :
    Option (List Event × List VerseLogRow) :=
  match fetchRes with
  | Except.error exc => some ([Event.error exc reference], [])
  | Except.ok data =>
    let verses₀ := data.verses.getD []
    if verses₀.isEmpty && pyTruthy data.text then
      match (pySplit reference).head? with
      | none => none
      | some w =>
        some (emitLoop [⟨some w, some "", some "", some (data.text.getD "")⟩]
          reference speaker source now)
    else
      some (emitLoop verses₀ reference speaker source now)

/-- Claim C9: when the fetch of a reference fails, that emitter task
broadcasts exactly one `error`-typed event carrying the message and the
reference, emits no verse event, appends no verse-log row, and terminates
normally (no exception escapes to its caller); and in the fan-out each
emitter's output is a function of its own fetch result alone, so one task's
failure cannot change what any other in-flight task produces. -/
theorem emit_reference_error_isolation
    (reference speaker source : String) (now : Int) (e : String) :
    emit_reference (Except.error e) reference speaker source now =
      some ([Event.error e reference], []) ∧
    (∀ (tasks : List (Except String ApiResponse × String)) (i : Nat)
        (hi : i < tasks.length),
      (tasks.map (fun t => emit_reference t.1 t.2 speaker source now))[i]? =
        some (emit_reference tasks[i].1 tasks[i].2 speaker source now)) := by
  refine ⟨rfl, ?_⟩
  intro tasks i hi
  rw [List.getElem?_map, List.getElem?_eq_getElem hi]
  rfl

/-- Witness for C9: a failing fetch next to a succeeding one. -/
theorem emit_reference_error_isolation_witness :
    emit_reference (Except.error "HTTPStatusError") "John 3:16" "pastor" "transcript" 0 =
      some ([Event.error "HTTPStatusError" "John 3:16"], []) ∧
    ([((Except.error "boom" : Except String ApiResponse), "Ref")].map
        (fun t => emit_reference t.1 t.2 "pastor" "transcript" 0))[0]? =
      some (emit_reference (Except.error "boom") "Ref" "pastor" "transcript" 0) :=
  ⟨(emit_reference_error_isolation "John 3:16" "pastor" "transcript" 0 "HTTPStatusError").1,
   (emit_reference_error_isolation "Ref" "pastor" "transcript" 0 "boom").2
     [((Except.error "boom" : Except String ApiResponse), "Ref")] 0 (by decide)⟩

end PSWS
